import Mathlib

/-!
Verification development for the wire-protocol codec (src/codecs.rs) and the
chunked snappy stream reader (src/compression/snappy.rs) of the kafka-rust
repository.  Rust byte slices are modelled as List Nat (each element a byte
value), machine integers as Int with explicit two-complement reduction, and
fallible operations as Except / an Outcome type that also records panics.
-/

namespace KafkaRust

/-- Error type of the crate (error.rs): the variants used by the embedded
code.  ioError stands for Error.Io e, the transparent wrapping of an
underlying I/O failure such as a short read inside byteorder. -/
inductive Error where
  | UnexpectedEOF
  | InvalidInputSnappy
  | CodecError
  | ioError
deriving DecidableEq

instance {ε α : Type} [DecidableEq ε] [DecidableEq α] : DecidableEq (Except ε α) :=
  fun a b =>
    match a, b with
    | .ok x, .ok y => if h : x = y then .isTrue (by rw [h]) else .isFalse (by simp [h])
    | .error x, .error y => if h : x = y then .isTrue (by rw [h]) else .isFalse (by simp [h])
    | .ok _, .error _ => .isFalse (by simp)
    | .error _, .ok _ => .isFalse (by simp)

/-- Big-endian value of a byte list: foldl as byteorder does. -/
def fromBytesBE (l : List Nat) : Nat :=
  l.foldl (fun a b => a * 256 + b) 0

/-- The w big-endian bytes of n (low w bytes, most significant first),
as byteorder write_iNN produces for the two-complement representation. -/
def toBytesBE : Nat → Nat → List Nat
  | 0, _ => []
  | w + 1, n => toBytesBE w (n / 256) ++ [n % 256]

/-- Reinterpret a w-byte unsigned value as a signed two-complement integer,
as byteorder read_iNN does. -/
def sintOfNat (w : Nat) (u : Nat) : Int :=
  if u < 2 ^ (8 * w - 1) then (u : Int) else (u : Int) - 2 ^ (8 * w)

/-- BigEndian read_i32 on (the first four bytes of) a slice. -/
def readI32be (l : List Nat) : Int :=
  sintOfNat 4 (fromBytesBE l)

/-- BigEndian read_i16 on (the first two bytes of) a slice. -/
def readI16be (l : List Nat) : Int :=
  sintOfNat 2 (fromBytesBE l)

/-- ToByte for iNN (w bytes): write_iNN with BigEndian writes the
two-complement byte pattern of v. -/
def encodeInt (w : Nat) (v : Int) : List Nat :=
  toBytesBE w (v % (2 ^ (8 * w) : Int)).toNat

/-- FromByte decode for iNN via the decode! macro: read_iNN with BigEndian;
a short buffer gives an I/O UnexpectedEof error wrapped by From. -/
def decodeInt (w : Nat) (buf : List Nat) : Except Error (Int × List Nat) :=
  if buf.length < w then .error .ioError
  else .ok (sintOfNat w (fromBytesBE (buf.take w)), buf.drop w)

def encodeI8 (v : Int) : List Nat := encodeInt 1 v
def encodeI16 (v : Int) : List Nat := encodeInt 2 v
def encodeI32 (v : Int) : List Nat := encodeInt 4 v
def encodeI64 (v : Int) : List Nat := encodeInt 8 v

def decodeI8 (buf : List Nat) : Except Error (Int × List Nat) := decodeInt 1 buf
def decodeI16 (buf : List Nat) : Except Error (Int × List Nat) := decodeInt 2 buf
def decodeI32 (buf : List Nat) : Except Error (Int × List Nat) := decodeInt 4 buf
def decodeI64 (buf : List Nat) : Except Error (Int × List Nat) := decodeInt 8 buf

/-- Is b a UTF-8 continuation byte (0x80 to 0xBF). -/
def isCont (b : Nat) : Bool := 0x80 ≤ b && b ≤ 0xBF

/-- Byte-level UTF-8 validity, exactly the check str from_utf8 performs
inside read_to_string on the newly read bytes. -/
def utf8Valid : List Nat → Bool
  | [] => true
  | b :: l =>
    if b ≤ 0x7F then utf8Valid l
    else if 0xC2 ≤ b && b ≤ 0xDF then
      match l with
      | c :: l₁ => isCont c && utf8Valid l₁
      | [] => false
    else if b = 0xE0 then
      match l with
      | c₁ :: c₂ :: l₁ => (0xA0 ≤ c₁ && c₁ ≤ 0xBF) && isCont c₂ && utf8Valid l₁
      | _ => false
    else if (0xE1 ≤ b && b ≤ 0xEC) || b = 0xEE || b = 0xEF then
      match l with
      | c₁ :: c₂ :: l₁ => isCont c₁ && isCont c₂ && utf8Valid l₁
      | _ => false
    else if b = 0xED then
      match l with
      | c₁ :: c₂ :: l₁ => (0x80 ≤ c₁ && c₁ ≤ 0x9F) && isCont c₂ && utf8Valid l₁
      | _ => false
    else if b = 0xF0 then
      match l with
      | c₁ :: c₂ :: c₃ :: l₁ =>
        (0x90 ≤ c₁ && c₁ ≤ 0xBF) && isCont c₂ && isCont c₃ && utf8Valid l₁
      | _ => false
    else if 0xF1 ≤ b && b ≤ 0xF3 then
      match l with
      | c₁ :: c₂ :: c₃ :: l₁ => isCont c₁ && isCont c₂ && isCont c₃ && utf8Valid l₁
      | _ => false
    else if b = 0xF4 then
      match l with
      | c₁ :: c₂ :: c₃ :: l₁ =>
        (0x80 ≤ c₁ && c₁ ≤ 0x8F) && isCont c₂ && isCont c₃ && utf8Valid l₁
      | _ => false
    else false

/-- ToByte for String: write the byte length as i16 BigEndian (CodecError if
it does not fit in i16), then the raw UTF-8 bytes.  A Rust String is
modelled by the list of its UTF-8 bytes, so len is the byte length. -/
def stringEncode (s : List Nat) : Except Error (List Nat) :=
  if 32767 < s.length then .error .CodecError
  else .ok (encodeInt 2 (s.length : Int) ++ s)

/-- FromByte decode for String: read an i16 length, then
buffer.take(length as u64).read_to_string(self) with the result discarded,
then compare self.len() against length as usize.  read_to_string appends the
bytes to self when they are valid UTF-8 and leaves self unchanged on a UTF-8
error; either way it consumes the taken bytes from the buffer.  Both casts of
the i16 length go through 64-bit sign extension.  Returns (result, the new
contents of self, the remaining buffer).  The body after a successful length
read is split out as stringDecodeBody; the Take adaptor consumes
min(limit, remaining) bytes from the buffer. -/
def stringDecodeBody (self : List Nat) (len : Int) (buf₁ : List Nat) :
    Except Error Unit × List Nat × List Nat :=
  let lim : Nat := (len % (2 ^ 64 : Int)).toNat
  let consumed := min lim buf₁.length
  let taken := buf₁.take consumed
  let rest := buf₁.drop consumed
  let self₁ := if utf8Valid taken then self ++ taken else self
  if self₁.length ≠ lim then (.error .UnexpectedEOF, self₁, rest)
  else (.ok (), self₁, rest)

def stringDecode (self buf : List Nat) : Except Error Unit × List Nat × List Nat :=
  match decodeInt 2 buf with
  | .error e => (.error e, self, buf)
  | .ok (len, buf₁) => stringDecodeBody self len buf₁

/-- decode_new for String: decode into a default (empty) string and return
it together with the remaining buffer. -/
def stringDecodeNew (buf : List Nat) : Except Error (List Nat × List Nat) :=
  match stringDecode [] buf with
  | (.ok _, self, rest) => .ok (self, rest)
  | (.error e, _, _) => .error e

/-- The element loop of FromByte decode for Vec V: for _ in 0..length,
default-construct an element, decode it in place, push it.  The element
decoder decV models V::decode on a default element, returning the decoded
value and the remaining buffer. -/
def vecDecodeLoop {α : Type} (decV : List Nat → Except Error (α × List Nat)) :
    Nat → List α → List Nat → Except Error (List α × List Nat)
  | 0, self, buf => .ok (self, buf)
  | n + 1, self, buf =>
    match decV buf with
    | .error e => .error e
    | .ok (e, buf₁) => vecDecodeLoop decV n (self ++ [e]) buf₁

/-- FromByte decode for Vec V: read an i32 count, then run the element loop
that many times (a non-positive count runs the Rust range 0..length zero
times). -/
def vecDecode {α : Type} (decV : List Nat → Except Error (α × List Nat))
    (self : List α) (buf : List Nat) : Except Error (List α × List Nat) :=
  match decodeInt 4 buf with
  | .error e => .error e
  | .ok (len, buf₁) => vecDecodeLoop decV len.toNat self buf₁

/-- decode_new for Vec V: decode into a default (empty) vector. -/
def vecDecodeNew {α : Type} (decV : List Nat → Except Error (α × List Nat))
    (buf : List Nat) : Except Error (List α × List Nat) :=
  vecDecode decV [] buf

/-- FromByte decode for Vec u8: read an i32 length, short-circuit to Ok on a
non-positive length, otherwise take(length).read_to_end(self) and fail with
UnexpectedEOF when fewer than length bytes were appended. -/
def bytesDecode (self buf : List Nat) : Except Error (List Nat × List Nat) :=
  match decodeInt 4 buf with
  | .error e => .error e
  | .ok (len, buf₁) =>
    if len ≤ 0 then .ok (self, buf₁)
    else
      let taken := buf₁.take len.toNat
      if taken.length < len.toNat then .error .UnexpectedEOF
      else .ok (self ++ taken, buf₁.drop len.toNat)

/-- decode_new for Vec u8: decode into a default (empty) vector. -/
def bytesDecodeNew (buf : List Nat) : Except Error (List Nat × List Nat) :=
  bytesDecode [] buf

/-- The fixed 8-byte stream header magic of snappy.rs. -/
def MAGIC : List Nat := [0x82, 0x53, 0x4E, 0x41, 0x50, 0x50, 0x59, 0x00]

/-- validate_stream: check the 8-byte magic, then read (with the next_i32
macro, whose own 4-byte presence check precedes the read) and check the
version and compatibility fields; return the remaining slice. -/
def validate_stream (stream : List Nat) : Except Error (List Nat) :=
  if stream.length < MAGIC.length then .error .UnexpectedEOF
  else if stream.take MAGIC.length ≠ MAGIC then .error .InvalidInputSnappy
  else
    let s₁ := stream.drop MAGIC.length
    if s₁.length < 4 then .error .UnexpectedEOF
    else
      let version := readI32be (s₁.take 4)
      let s₂ := s₁.drop 4
      if version ≠ 1 then .error .InvalidInputSnappy
      else if s₂.length < 4 then .error .UnexpectedEOF
      else
        let compat := readI32be (s₂.take 4)
        let s₃ := s₂.drop 4
        if compat ≠ 1 then .error .InvalidInputSnappy
        else .ok s₃

/-- The state of a SnappyReader: the remaining compressed view, the cursor
into the decompressed chunk, and the decompressed chunk itself. -/
structure SnappyReader where
  compressed_data : List Nat
  uncompressed_pos : Nat
  uncompressed_chunk : List Nat
deriving DecidableEq

/-- The outcome of a stateful reader operation: Ok or Err together with the
mutated state (Rust methods take &mut self, so mutations made before an
early return survive it), or a panic (an out-of-bounds slice index). -/
inductive Outcome (σ : Type) (α : Type) where
  | ok (a : α) (s : σ)
  | err (e : Error) (s : σ)
  | panic
deriving DecidableEq

/-- The external rsnappy decompressor is abstract: it appends its output to
the destination and on failure the destination contents are unspecified, so
an error carries whatever bytes were appended before failing.  okDecomp is
one concrete instance used for closed evaluations. -/
def okDecomp : List Nat → Except (List Nat) (List Nat) := fun l => .ok l

/-- SnappyReader::new: validate the stream header and start with an empty
decompressed chunk and cursor 0. -/
def SnappyReader.new (stream : List Nat) : Except Error SnappyReader :=
  match validate_stream stream with
  | .error e => .error e
  | .ok rest => .ok ⟨rest, 0, []⟩

/-- read_uncompressed: a slice read copies min(buf.len, remaining) bytes and
never fails; the cursor advances by the count.  The destination buffer
contents are not modelled, only its length bufLen. -/
def read_uncompressed (bufLen : Nat) (s : SnappyReader) : Nat × SnappyReader :=
  let n := min bufLen (s.uncompressed_chunk.length - s.uncompressed_pos)
  (n, { s with uncompressed_pos := s.uncompressed_pos + n })

/-- next_chunk: on an empty view return Ok(false); otherwise reset the
cursor, read the chunk length with next_i32 (4-byte presence check first,
and on success the view advances past the prefix), reject non-positive
lengths, slice chunk_size bytes (a Rust slice index out of range panics when
fewer remain), clear the chunk buffer, decompress into it, and advance the
view past the chunk. -/
def next_chunk (decomp : List Nat → Except (List Nat) (List Nat))
    (s : SnappyReader) : Outcome SnappyReader Bool :=
  if s.compressed_data = [] then .ok false s
  else
    let s₁ := { s with uncompressed_pos := 0 }
    if s₁.compressed_data.length < 4 then .err .UnexpectedEOF s₁
    else
      let cs := readI32be (s₁.compressed_data.take 4)
      let s₂ := { s₁ with compressed_data := s₁.compressed_data.drop 4 }
      if cs ≤ 0 then .err .InvalidInputSnappy s₂
      else if s₂.compressed_data.length < cs.toNat then .panic
      else
        let s₃ := { s₂ with uncompressed_chunk := [] }
        match decomp (s₂.compressed_data.take cs.toNat) with
        | .ok out =>
          .ok true { s₃ with
                     uncompressed_chunk := out,
                     compressed_data := s₂.compressed_data.drop cs.toNat }
        | .error p => .err .InvalidInputSnappy { s₃ with uncompressed_chunk := p }

/-- SnappyReader::_read (the Read::read impl only converts the error type):
serve buffered bytes if any remain, otherwise load the next chunk and serve
from it, or return Ok(0) at the end of the stream. -/
def SnappyReader.read (decomp : List Nat → Except (List Nat) (List Nat))
    (bufLen : Nat) (s : SnappyReader) : Outcome SnappyReader Nat :=
  if s.uncompressed_pos < s.uncompressed_chunk.length then
    let (n, s₁) := read_uncompressed bufLen s
    .ok n s₁
  else
    match next_chunk decomp s with
    | .ok true s₁ =>
      let (n, s₂) := read_uncompressed bufLen s₁
      .ok n s₂
    | .ok false s₁ => .ok 0 s₁
    | .err e s₁ => .err e s₁
    | .panic => .panic

/-- The while loop of _read_to_end over the compressed view: read a chunk
length (next_i32 advances past the prefix on success), reject non-positive
lengths, split_at(chunk_size) (which panics when fewer bytes remain),
decompress the chunk directly into the accumulator and continue on the
remainder.  Returns the final view and accumulator. -/
def rteLoop (decomp : List Nat → Except (List Nat) (List Nat))
    (compressed acc : List Nat) : Outcome (List Nat × List Nat) Unit :=
  if compressed = [] then .ok () (compressed, acc)
  else if _h₄ : compressed.length < 4 then .err .UnexpectedEOF (compressed, acc)
  else
    let cs := readI32be (compressed.take 4)
    let rest := compressed.drop 4
    if cs ≤ 0 then .err .InvalidInputSnappy (rest, acc)
    else if rest.length < cs.toNat then .panic
    else
      match decomp (rest.take cs.toNat) with
      | .error p => .err .InvalidInputSnappy (rest, acc ++ p)
      | .ok out => rteLoop decomp (rest.drop cs.toNat) (acc ++ out)
termination_by compressed.length
decreasing_by all_goals (simp_wf; omega)

/-- SnappyReader::_read_to_end: first move any unconsumed buffered bytes to
the accumulator and advance the cursor to the end of the chunk, then run the
chunk loop on the compressed view; the returned count is the number of bytes
appended by this call. -/
def SnappyReader.read_to_end (decomp : List Nat → Except (List Nat) (List Nat))
    (acc : List Nat) (s : SnappyReader) : Outcome (SnappyReader × List Nat) Nat :=
  let init_len := acc.length
  let pr : List Nat × SnappyReader :=
    if s.uncompressed_pos < s.uncompressed_chunk.length then
      let chunkRest := s.uncompressed_chunk.drop s.uncompressed_pos
      (acc ++ chunkRest, { s with uncompressed_pos := s.uncompressed_pos + chunkRest.length })
    else (acc, s)
  match rteLoop decomp pr.2.compressed_data pr.1 with
  | .ok _ (c, a) => .ok (a.length - init_len) ({ pr.2 with compressed_data := c }, a)
  | .err e (c, a) => .err e ({ pr.2 with compressed_data := c }, a)
  | .panic => .panic

end KafkaRust

namespace KafkaRust

theorem toBytesBE_length (w n : Nat) : (toBytesBE w n).length = w := by
  induction w generalizing n with
  | zero => rfl
  | succ w ih => simp [toBytesBE, ih]

theorem fromBytesBE_append (l : List Nat) (b : Nat) :
    fromBytesBE (l ++ [b]) = fromBytesBE l * 256 + b := by
  simp [fromBytesBE, List.foldl_append]

theorem fromBytesBE_toBytesBE (w n : Nat) :
    fromBytesBE (toBytesBE w n) = n % 2 ^ (8 * w) := by
  induction w generalizing n with
  | zero => simp [toBytesBE, fromBytesBE, Nat.mod_one]
  | succ w ih =>
    rw [toBytesBE, fromBytesBE_append, ih]
    have hpow : 2 ^ (8 * (w + 1)) = 256 * 2 ^ (8 * w) := by
      rw [Nat.mul_succ, pow_add]; ring
    rw [hpow, Nat.mod_mul]
    have h1 : n / 256 % 2 ^ (8 * w) < 2 ^ (8 * w) :=
      Nat.mod_lt _ (Nat.pos_pow_of_pos _ (by norm_num))
    have h2 : n % 256 < 256 := Nat.mod_lt _ (by norm_num)
    omega

/-- An elementary fact about emod for negative arguments close to zero. -/
theorem emod_of_neg (a m : Int) (h1 : -m ≤ a) (h2 : a < 0) :
    a % m = a + m := by
  have key : (a + m * 1) % m = a % m := Int.add_mul_emod_self_left a m 1
  rw [mul_one] at key
  rw [← key]
  exact Int.emod_eq_of_lt (by omega) (by omega)

theorem sintOfNat_emod (w : Nat) (hw : 0 < w) (v : Int)
    (h1 : -(2 ^ (8 * w - 1)) ≤ v) (h2 : v < 2 ^ (8 * w - 1)) :
    sintOfNat w ((v % (2 ^ (8 * w) : Int)).toNat) = v := by
  have hsplit : (2 : Int) ^ (8 * w) = 2 * 2 ^ (8 * w - 1) := by
    have h : 8 * w - 1 + 1 = 8 * w := by omega
    calc (2 : Int) ^ (8 * w) = 2 ^ (8 * w - 1 + 1) := by rw [h]
      _ = 2 ^ (8 * w - 1) * 2 := pow_succ 2 _
      _ = 2 * 2 ^ (8 * w - 1) := by ring
  have hcast : ((2 ^ (8 * w - 1) : Nat) : Int) = 2 ^ (8 * w - 1) := by
    push_cast; ring
  unfold sintOfNat
  rcases le_or_lt 0 v with hv | hv
  · have hmod : v % ((2 : Int) ^ (8 * w)) = v :=
      Int.emod_eq_of_lt hv (by omega)
    rw [hmod]
    have hc : v.toNat < 2 ^ (8 * w - 1) := by omega
    simp only [hc, if_true]
    omega
  · have hmod : v % ((2 : Int) ^ (8 * w)) = v + 2 ^ (8 * w) :=
      emod_of_neg v _ (by omega) hv
    rw [hmod]
    have hc : ¬ ((v + 2 ^ (8 * w)).toNat < 2 ^ (8 * w - 1)) := by omega
    simp only [hc, if_false]
    omega

theorem encodeInt_length (w : Nat) (v : Int) : (encodeInt w v).length = w :=
  toBytesBE_length _ _

theorem decodeInt_encodeInt (w : Nat) (hw : 0 < w) (v : Int)
    (h1 : -(2 ^ (8 * w - 1)) ≤ v) (h2 : v < 2 ^ (8 * w - 1)) (rest : List Nat) :
    decodeInt w (encodeInt w v ++ rest) = .ok (v, rest) := by
  have hlen : (encodeInt w v).length = w := encodeInt_length w v
  unfold decodeInt
  rw [if_neg (by simp [hlen])]
  rw [List.take_left' hlen, List.drop_left' hlen]
  unfold encodeInt
  rw [fromBytesBE_toBytesBE]
  have hemodlt : (v % ((2 : Int) ^ (8 * w))).toNat < 2 ^ (8 * w) := by
    have hp : (0 : Int) < 2 ^ (8 * w) := by positivity
    have := Int.emod_lt_of_pos v hp
    have hcast : ((2 ^ (8 * w) : Nat) : Int) = 2 ^ (8 * w) := by push_cast; ring
    omega
  rw [Nat.mod_eq_of_lt hemodlt, sintOfNat_emod w hw v h1 h2]

/-- Claim C5: for every signed integer v of width 1, 2, 4, or 8 bytes,
decoding (via decode_new) the bytes produced by encoding v yields exactly v,
with the remaining input untouched. -/
theorem C5_int_roundtrip :
    (∀ (v : Int) (rest : List Nat), -(2 ^ 7) ≤ v → v < 2 ^ 7 →
      decodeI8 (encodeI8 v ++ rest) = .ok (v, rest)) ∧
    (∀ (v : Int) (rest : List Nat), -(2 ^ 15) ≤ v → v < 2 ^ 15 →
      decodeI16 (encodeI16 v ++ rest) = .ok (v, rest)) ∧
    (∀ (v : Int) (rest : List Nat), -(2 ^ 31) ≤ v → v < 2 ^ 31 →
      decodeI32 (encodeI32 v ++ rest) = .ok (v, rest)) ∧
    (∀ (v : Int) (rest : List Nat), -(2 ^ 63) ≤ v → v < 2 ^ 63 →
      decodeI64 (encodeI64 v ++ rest) = .ok (v, rest)) :=
  ⟨fun v rest h1 h2 => decodeInt_encodeInt 1 (by norm_num) v h1 h2 rest,
   fun v rest h1 h2 => decodeInt_encodeInt 2 (by norm_num) v h1 h2 rest,
   fun v rest h1 h2 => decodeInt_encodeInt 4 (by norm_num) v h1 h2 rest,
   fun v rest h1 h2 => decodeInt_encodeInt 8 (by norm_num) v h1 h2 rest⟩

/-- How String decode behaves at a well-formed encoding (a 2-byte length
followed by exactly that many valid UTF-8 payload bytes): read_to_string
appends the payload to self, so the final length check passes exactly when
self started empty. -/
theorem stringDecode_wellformed (self payload rest : List Nat)
    (hv : utf8Valid payload = true) (hlen : payload.length ≤ 32767) :
    stringDecode self (encodeInt 2 (payload.length : Int) ++ (payload ++ rest)) =
      (if self = [] then .ok () else .error .UnexpectedEOF, self ++ payload, rest) := by
  have hb1 : -(2 ^ (8 * 2 - 1) : Int) ≤ (payload.length : Int) := by
    have h0 := Int.natCast_nonneg payload.length
    norm_num
    omega
  have hb2 : (payload.length : Int) < 2 ^ (8 * 2 - 1) := by
    norm_num
    omega
  have hdec := decodeInt_encodeInt 2 (by norm_num) (payload.length : Int) hb1 hb2 (payload ++ rest)
  have hlim : ((payload.length : Int) % ((2 : Int) ^ 64)).toNat = payload.length := by
    rw [Int.emod_eq_of_lt (Int.natCast_nonneg _) (by norm_num; omega)]
    simp
  simp only [stringDecode, hdec]
  unfold stringDecodeBody
  simp only [hlim]
  have hmin : min payload.length (payload ++ rest).length = payload.length := by
    simp [List.length_append]
  simp only [hmin, List.take_left, List.drop_left, hv, if_true]
  by_cases hs : self = []
  · subst hs
    simp
  · have hne : (self ++ payload).length ≠ payload.length := by
      simp only [List.length_append, ne_eq]
      intro hc
      exact hs (List.length_eq_zero.mp (by omega))
    simp [hne, hs]

/-- The two bytes written for a length that fits in i16. -/
theorem encodeInt2_eq (L : Nat) (h : L ≤ 32767) :
    encodeInt 2 (L : Int) = [L / 256, L % 256] := by
  unfold encodeInt
  have h1 : ((L : Int) % (2 ^ (8 * 2) : Int)).toNat = L := by
    rw [Int.emod_eq_of_lt (Int.natCast_nonneg _) (by norm_num; omega)]
    simp
  rw [h1]
  have h2 : L / 256 % 256 = L / 256 := Nat.mod_eq_of_lt (by omega)
  simp [toBytesBE, h2]

/-- Claim C6: for every string of byte length at most 32767, decoding (via
decode_new) the encoding reproduces the string and leaves the rest of the
input, and the first two bytes of the encoding are the byte length as a
16-bit big-endian value. -/
theorem C6_string_roundtrip (s rest : List Nat) (hv : utf8Valid s = true)
    (hlen : s.length ≤ 32767) :
    stringEncode s = .ok (encodeInt 2 (s.length : Int) ++ s) ∧
    stringDecodeNew (encodeInt 2 (s.length : Int) ++ (s ++ rest)) = .ok (s, rest) ∧
    (encodeInt 2 (s.length : Int) ++ s).take 2 = [s.length / 256, s.length % 256] := by
  refine ⟨?_, ?_, ?_⟩
  · unfold stringEncode
    rw [if_neg (by omega)]
  · unfold stringDecodeNew
    rw [stringDecode_wellformed [] s rest hv hlen]
    simp
  · rw [List.take_left' (encodeInt_length 2 _), encodeInt2_eq s.length hlen]

theorem C6_string_roundtrip_witness :
    stringEncode [104, 105] = .ok (encodeInt 2 (([104, 105] : List Nat).length : Int) ++ [104, 105]) ∧
    stringDecodeNew (encodeInt 2 (([104, 105] : List Nat).length : Int) ++ ([104, 105] ++ [1])) =
      .ok ([104, 105], [1]) ∧
    (encodeInt 2 (([104, 105] : List Nat).length : Int) ++ [104, 105]).take 2 =
      [([104, 105] : List Nat).length / 256, ([104, 105] : List Nat).length % 256] :=
  C6_string_roundtrip [104, 105] [1] (by decide) (by decide)

/-- Claim C4 is false on the code: String decode invoked on a non-empty
pre-existing target fails even at a well-formed encoding, because
read_to_string appends to the target instead of replacing it.  Here [0,1,98]
is exactly the encoding of the one-byte string b, and decoding it into the
non-empty string a returns an UnexpectedEOF error instead of succeeding. -/
theorem C4_counterexample :
    stringEncode [98] = .ok [0, 1, 98] ∧
    (stringDecode [97] [0, 1, 98]).1 = .error .UnexpectedEOF := by decide

/-- Claim C4 (amended): decode appends to the pre-existing value, so in-place
String decode at a well-formed encoding succeeds exactly on an empty target,
populating it with the payload and consuming exactly the prefix plus payload
bytes; on a non-empty target it returns UnexpectedEOF. -/
theorem C4_decode_appends (self payload rest : List Nat)
    (hv : utf8Valid payload = true) (hlen : payload.length ≤ 32767)
    (hself : self ≠ []) :
    stringDecode [] (encodeInt 2 (payload.length : Int) ++ (payload ++ rest)) =
      (.ok (), payload, rest) ∧
    (stringDecode self (encodeInt 2 (payload.length : Int) ++ (payload ++ rest))).1 =
      .error .UnexpectedEOF := by
  constructor
  · rw [stringDecode_wellformed [] payload rest hv hlen]
    simp
  · rw [stringDecode_wellformed self payload rest hv hlen]
    simp [hself]

theorem C4_decode_appends_witness :
    stringDecode [] (encodeInt 2 (([98] : List Nat).length : Int) ++ ([98] ++ [])) =
      (.ok (), [98], []) ∧
    (stringDecode [97] (encodeInt 2 (([98] : List Nat).length : Int) ++ ([98] ++ []))).1 =
      .error .UnexpectedEOF :=
  C4_decode_appends [97] [98] [] (by decide) (by decide) (by decide)

theorem C5_int_roundtrip_witness :
    decodeI8 (encodeI8 (-128) ++ [9]) = .ok (-128, [9]) ∧
    decodeI16 (encodeI16 300 ++ []) = .ok (300, []) ∧
    decodeI32 (encodeI32 (-70000) ++ []) = .ok (-70000, []) ∧
    decodeI64 (encodeI64 1099511627776 ++ []) = .ok (1099511627776, []) :=
  ⟨C5_int_roundtrip.1 (-128) [9] (by decide) (by decide),
   C5_int_roundtrip.2.1 300 [] (by decide) (by decide),
   C5_int_roundtrip.2.2.1 (-70000) [] (by decide) (by decide),
   C5_int_roundtrip.2.2.2 1099511627776 [] (by decide) (by decide)⟩

/-- Claim C7: for every sequence decode via decode_new (generic elements,
with any element decoder, and raw bytes) whose declared 32-bit count is zero
or negative, the operation returns an empty result without error and
consumes nothing beyond the 4-byte count field. -/
theorem C7_nonpositive_count (α : Type) (decV : List Nat → Except Error (α × List Nat))
    (buf rest : List Nat) (len : Int)
    (hdec : decodeInt 4 buf = .ok (len, rest)) (hnp : len ≤ 0) :
    vecDecodeNew decV buf = .ok ([], rest) ∧ bytesDecodeNew buf = .ok ([], rest) := by
  have h0 : len.toNat = 0 := Int.toNat_of_nonpos hnp
  constructor
  · unfold vecDecodeNew vecDecode
    rw [hdec]
    show vecDecodeLoop decV len.toNat [] rest = .ok ([], rest)
    rw [h0]
    rfl
  · unfold bytesDecodeNew bytesDecode
    rw [hdec]
    simp [hnp]

theorem C7_nonpositive_count_witness :
    vecDecodeNew decodeI8 [255, 255, 255, 255, 9] = .ok ([], [9]) ∧
    bytesDecodeNew [255, 255, 255, 255, 9] = .ok ([], [9]) :=
  C7_nonpositive_count Int decodeI8 [255, 255, 255, 255, 9] [9] (-1) (by decide) (by decide)

/-- Claim C8: a reader in the exhausted state (empty compressed view, cursor
at the end of the decompressed chunk) returns 0 from read and from
read_to_end without error and entirely unchanged, so repeated calls keep
returning 0. -/
theorem C8_exhausted_reads_zero (decomp : List Nat → Except (List Nat) (List Nat))
    (bufLen : Nat) (acc : List Nat) (s : SnappyReader)
    (hc : s.compressed_data = [])
    (hp : s.uncompressed_pos = s.uncompressed_chunk.length) :
    SnappyReader.read decomp bufLen s = .ok 0 s ∧
    SnappyReader.read_to_end decomp acc s = .ok 0 (s, acc) := by
  obtain ⟨cd, up, uc⟩ := s
  simp only at hc hp
  subst hc
  subst hp
  constructor
  · unfold SnappyReader.read next_chunk
    simp
  · unfold SnappyReader.read_to_end
    simp [rteLoop]

theorem C8_exhausted_reads_zero_witness :
    SnappyReader.read okDecomp 4 ⟨[], 2, [5, 6]⟩ = .ok 0 ⟨[], 2, [5, 6]⟩ ∧
    SnappyReader.read_to_end okDecomp [3] ⟨[], 2, [5, 6]⟩ = .ok 0 (⟨[], 2, [5, 6]⟩, [3]) :=
  C8_exhausted_reads_zero okDecomp 4 [3] ⟨[], 2, [5, 6]⟩ rfl rfl

/-- Folding bytes below 256 over an accumulator stays below the bound. -/
theorem foldlBE_lt (l : List Nat) : ∀ (a : Nat), (∀ b ∈ l, b < 256) →
    l.foldl (fun x y => x * 256 + y) a < (a + 1) * 2 ^ (8 * l.length) := by
  induction l with
  | nil =>
    intro a _
    simp
  | cons b l ih =>
    intro a hball
    have hb' : b < 256 := hball b (by simp)
    have hrec := ih (a * 256 + b) (fun x hx => hball x (by simp [hx]))
    calc (b :: l).foldl (fun x y => x * 256 + y) a
        = l.foldl (fun x y => x * 256 + y) (a * 256 + b) := rfl
      _ < (a * 256 + b + 1) * 2 ^ (8 * l.length) := hrec
      _ ≤ ((a + 1) * 256) * 2 ^ (8 * l.length) := by
          apply Nat.mul_le_mul_right
          omega
      _ = (a + 1) * 2 ^ (8 * (b :: l).length) := by
          have h8 : 8 * (b :: l).length = 8 * l.length + 8 := by
            rw [List.length_cons]
            ring
          rw [h8, pow_add]
          have h256 : (2 : Nat) ^ 8 = 256 := by norm_num
          rw [h256]
          ring

/-- Bytes below 256 keep big-endian values below 2 to the 8w. -/
theorem fromBytesBE_lt (l : List Nat) (hb : ∀ b ∈ l, b < 256) :
    fromBytesBE l < 2 ^ (8 * l.length) := by
  have h := foldlBE_lt l 0 hb
  simpa [fromBytesBE] using h

/-- When the 64-bit take limit exceeds the whole remaining buffer (and the
target plus buffer cannot reach it either), the length comparison fails:
everything is consumed and UnexpectedEOF is returned. -/
theorem stringDecodeBody_limit_exceeds (self : List Nat) (len : Int) (buf₁ : List Nat)
    (hbig : buf₁.length < (len % ((2 : Int) ^ 64)).toNat)
    (hall : self.length + buf₁.length < (len % ((2 : Int) ^ 64)).toNat) :
    stringDecodeBody self len buf₁ =
      (.error .UnexpectedEOF, if utf8Valid buf₁ then self ++ buf₁ else self, []) := by
  have hmin : min ((len % ((2 : Int) ^ 64)).toNat) buf₁.length = buf₁.length :=
    Nat.min_eq_right (by omega)
  simp only [stringDecodeBody, hmin, List.take_length, List.drop_length]
  have hne : (if utf8Valid buf₁ = true then self ++ buf₁ else self).length ≠
      (len % ((2 : Int) ^ 64)).toNat := by
    split
    · simp only [List.length_append]
      omega
    · omega
  rw [if_pos hne]

/-- Claim C9: when the declared 16-bit string length is negative, the
negative length is sign-extended to a huge u64 take limit, the remaining
input is consumed entirely, and the length comparison cannot hold, so
String decode returns UnexpectedEOF (and never Ok, never a panic).  The
size bounds reflect that Rust slices and strings are far below 2 to the 62
bytes. -/
theorem C9_negative_length (self buf : List Nat)
    (hlen2 : 2 ≤ buf.length)
    (hneg : readI16be (buf.take 2) < 0)
    (hs : self.length < 2 ^ 62) (hb : buf.length < 2 ^ 62) :
    (stringDecode self buf).1 = .error .UnexpectedEOF ∧
    (stringDecode self buf).2.2 = [] := by
  have hdec : decodeInt 2 buf = .ok (readI16be (buf.take 2), buf.drop 2) := by
    unfold decodeInt
    rw [if_neg (by omega)]
    rfl
  have hlow : -(32768 : Int) ≤ readI16be (buf.take 2) := by
    unfold readI16be sintOfNat
    norm_num
    split <;> omega
  have hlim : (readI16be (buf.take 2) % ((2 : Int) ^ 64)).toNat =
      (readI16be (buf.take 2) + 2 ^ 64).toNat := by
    rw [emod_of_neg _ _ (by norm_num; omega) hneg]
  have hlimbig : 18446744073709518848 ≤ (readI16be (buf.take 2) % ((2 : Int) ^ 64)).toNat := by
    rw [hlim]
    have hc : (2 : Int) ^ 64 = 18446744073709551616 := by norm_num
    omega
  have hb62 : (2 : Nat) ^ 62 = 4611686018427387904 := by norm_num
  have hdlen : (buf.drop 2).length = buf.length - 2 := List.length_drop 2 buf
  simp only [stringDecode, hdec]
  rw [stringDecodeBody_limit_exceeds self _ (buf.drop 2) (by omega) (by omega)]
  constructor <;> rfl

theorem C9_negative_length_witness :
    (stringDecode [] [255, 255]).1 = .error .UnexpectedEOF ∧
    (stringDecode [] [255, 255]).2.2 = [] :=
  C9_negative_length [] [255, 255] (by decide) (by decide) (by decide) (by decide)

/-- take of min of the limit and the length is take of the limit. -/
theorem take_min_length (l : List Nat) (n : Nat) :
    l.take (min n l.length) = l.take n := by
  rcases le_total n l.length with h | h
  · rw [Nat.min_eq_left h]
  · rw [Nat.min_eq_right h, List.take_length, List.take_of_length_le h]

/-- Claim C10: when the declared string length is positive but the taken
payload bytes are not valid UTF-8, the UTF-8 error of read_to_string is
discarded, the target stays empty, and the length comparison fails, so
decode_new for String reports UnexpectedEOF (not an I/O or invalid-input
error). -/
theorem C10_invalid_utf8 (buf rest₁ : List Nat) (len : Int)
    (hb : ∀ b ∈ buf, b < 256)
    (hdec : decodeInt 2 buf = .ok (len, rest₁)) (hpos : 0 < len)
    (hbad : utf8Valid (rest₁.take len.toNat) = false) :
    stringDecodeNew buf = .error .UnexpectedEOF := by
  have hblen : ¬ (buf.length < 2) := by
    by_contra hcon
    unfold decodeInt at hdec
    rw [if_pos (by omega)] at hdec
    cases hdec
  have hrest : rest₁ = buf.drop 2 ∧ len = sintOfNat 2 (fromBytesBE (buf.take 2)) := by
    unfold decodeInt at hdec
    rw [if_neg hblen] at hdec
    cases hdec
    exact ⟨rfl, rfl⟩
  obtain ⟨hr, hl⟩ := hrest
  have hulast : fromBytesBE (buf.take 2) < 2 ^ 16 := by
    have htk : (buf.take 2).length = 2 := by
      simp [List.length_take]
      omega
    have h := fromBytesBE_lt (buf.take 2) (fun b hmem => hb b (List.mem_of_mem_take hmem))
    rw [htk] at h
    norm_num at h ⊢
    omega
  have hlt : len < 2 ^ 64 := by
    rw [hl]
    unfold sintOfNat
    norm_num at hulast ⊢
    split <;> omega
  have hlim : (len % ((2 : Int) ^ 64)).toNat = len.toNat := by
    rw [Int.emod_eq_of_lt (by omega) hlt]
  unfold stringDecodeNew
  simp only [stringDecode, hdec]
  unfold stringDecodeBody
  simp only [hlim, take_min_length, hbad, Bool.false_eq_true, if_false]
  have h0ne : ¬ ((0 : Nat) = len.toNat) := by omega
  simp [h0ne]

theorem C10_invalid_utf8_witness :
    stringDecodeNew [0, 1, 255] = .error .UnexpectedEOF :=
  C10_invalid_utf8 [0, 1, 255] [255] 1 (by decide) (by decide) (by decide) (by decide)

/-- Claim C1 is right and the code is wrong: with a chunk-length prefix of 5
followed by only 2 payload bytes, next_chunk evaluates
compressed_data[..5] and _read_to_end evaluates split_at(5), and a Rust
range index past the end of a slice panics instead of returning
Err(UnexpectedEOF) as the spec requires. -/
theorem C1_truncated_chunk_panics :
    SnappyReader.read okDecomp 10 ⟨[0, 0, 0, 5, 1, 2], 0, []⟩ = .panic ∧
    SnappyReader.read_to_end okDecomp [] ⟨[0, 0, 0, 5, 1, 2], 0, []⟩ = .panic := by
  constructor
  · decide
  · simp [SnappyReader.read_to_end, rteLoop, readI32be, sintOfNat, fromBytesBE]

/-- Claim C2 is false on the code: the up-front presence check covers only
the 8 magic bytes, so this 8-byte input (shorter than 16 bytes, wrong
magic) fails with InvalidInput, not UnexpectedEOF. -/
theorem C2_counterexample :
    ([0, 0, 0, 0, 0, 0, 0, 0] : List Nat).length < 16 ∧
    validate_stream [0, 0, 0, 0, 0, 0, 0, 0] = .error .InvalidInputSnappy := by decide

/-- Claim C2 (amended): header validation always fails on an input shorter
than 16 bytes, but the error is UnexpectedEOF only below 8 bytes or when the
magic (and, from 12 bytes on, the version) checks pass, because the magic
comparison and the per-field 4-byte presence checks run in between. -/
theorem C2_short_input (stream : List Nat) (h16 : stream.length < 16) :
    validate_stream stream = .error
      (if stream.length < 8 then .UnexpectedEOF
       else if stream.take 8 ≠ MAGIC then .InvalidInputSnappy
       else if stream.length < 12 then .UnexpectedEOF
       else if readI32be ((stream.drop 8).take 4) ≠ 1 then .InvalidInputSnappy
       else .UnexpectedEOF) := by
  have hM : MAGIC.length = 8 := rfl
  have hd8 : (stream.drop 8).length = stream.length - 8 := List.length_drop 8 stream
  have hd12 : ((stream.drop 8).drop 4).length = stream.length - 12 := by
    simp [List.length_drop]
  simp only [validate_stream, hM]
  split_ifs <;> first | rfl | omega

theorem C2_short_input_witness :
    validate_stream (MAGIC ++ [0, 0, 0, 1, 0, 0, 0]) = .error .UnexpectedEOF := by
  rw [C2_short_input (MAGIC ++ [0, 0, 0, 1, 0, 0, 0]) (by decide)]
  decide

/-- Claim C3 is false on the code: this read returns an error, yet the
cursor has been reset from 1 to 0 by next_chunk before the 4-byte presence
check failed, so the state after the call differs from the state before. -/
theorem C3_counterexample :
    SnappyReader.read okDecomp 1 ⟨[0, 0, 0], 1, [7]⟩ =
      .err .UnexpectedEOF ⟨[0, 0, 0], 0, [7]⟩ ∧
    SnappyReader.mk [0, 0, 0] 0 [7] ≠ SnappyReader.mk [0, 0, 0] 1 [7] := by decide

/-- On any error from next_chunk, the compressed view is unchanged or has
advanced past exactly the 4-byte length prefix (the cursor and chunk buffer
may have changed). -/
theorem next_chunk_err_suffix (decomp : List Nat → Except (List Nat) (List Nat))
    (s : SnappyReader) (e : Error) (s₁ : SnappyReader)
    (h : next_chunk decomp s = .err e s₁) :
    s₁.compressed_data.IsSuffix s.compressed_data := by
  simp only [next_chunk] at h
  by_cases hc : s.compressed_data = []
  · rw [if_pos hc] at h
    simp at h
  · rw [if_neg hc] at h
    by_cases h4 : s.compressed_data.length < 4
    · rw [if_pos h4] at h
      cases h
      exact List.suffix_refl _
    · rw [if_neg h4] at h
      by_cases hcs : readI32be (s.compressed_data.take 4) ≤ 0
      · rw [if_pos hcs] at h
        cases h
        exact List.drop_suffix 4 _
      · rw [if_neg hcs] at h
        by_cases hlen : (s.compressed_data.drop 4).length <
            (readI32be (s.compressed_data.take 4)).toNat
        · rw [if_pos hlen] at h
          simp at h
        · rw [if_neg hlen] at h
          rcases hdec : decomp ((s.compressed_data.drop 4).take
              (readI32be (s.compressed_data.take 4)).toNat) with p | out
          · rw [hdec] at h
            cases h
            exact List.drop_suffix 4 _
          · rw [hdec] at h
            simp at h

/-- On any error from the read_to_end chunk loop, the final compressed view
is a suffix of the initial one. -/
theorem rteLoop_suffix (decomp : List Nat → Except (List Nat) (List Nat)) :
    ∀ (n : Nat) (c acc : List Nat), c.length ≤ n →
    ∀ (e : Error) (c₁ a₁ : List Nat),
      rteLoop decomp c acc = .err e (c₁, a₁) → c₁.IsSuffix c := by
  intro n
  induction n with
  | zero =>
    intro c acc hle e c₁ a₁ h
    have hc : c = [] := List.length_eq_zero.mp (by omega)
    rw [rteLoop, if_pos hc] at h
    simp at h
  | succ n ih =>
    intro c acc hle e c₁ a₁ h
    rw [rteLoop] at h
    by_cases hc : c = []
    · rw [if_pos hc] at h
      simp at h
    · rw [if_neg hc] at h
      by_cases h4 : c.length < 4
      · rw [dif_pos h4] at h
        simp only [Outcome.err.injEq, Prod.mk.injEq] at h
        obtain ⟨-, hcc, -⟩ := h
        subst hcc
        exact List.suffix_refl _
      · rw [dif_neg h4] at h
        simp only at h
        by_cases hcs : readI32be (c.take 4) ≤ 0
        · rw [if_pos hcs] at h
          simp only [Outcome.err.injEq, Prod.mk.injEq] at h
          obtain ⟨-, hcc, -⟩ := h
          subst hcc
          exact List.drop_suffix 4 _
        · rw [if_neg hcs] at h
          by_cases hlen : (c.drop 4).length < (readI32be (c.take 4)).toNat
          · rw [if_pos hlen] at h
            simp at h
          · rw [if_neg hlen] at h
            rcases hdec : decomp ((c.drop 4).take (readI32be (c.take 4)).toNat) with p | out
            · rw [hdec] at h
              simp only [Outcome.err.injEq, Prod.mk.injEq] at h
              obtain ⟨-, hcc, -⟩ := h
              subst hcc
              exact List.drop_suffix 4 _
            · rw [hdec] at h
              have hlt : ((c.drop 4).drop (readI32be (c.take 4)).toNat).length ≤ n := by
                have h1 : c.length ≤ n + 1 := hle
                have h2 : 1 ≤ c.length := by
                  cases c
                  · exact absurd rfl hc
                  · simp
                simp only [List.length_drop]
                omega
              exact (ih _ _ hlt e c₁ a₁ h).trans
                ((List.drop_suffix _ _).trans (List.drop_suffix _ _))

/-- Claim C3 (amended): reader operations do not fail atomically; a failing
read or read_to_end may reset the cursor, clear or overwrite the
decompressed chunk, and advance the compressed view past consumed chunks.
What is guaranteed on error is only that the remaining compressed view is a
suffix of the previous one. -/
theorem C3_error_not_atomic :
    (∀ (decomp : List Nat → Except (List Nat) (List Nat)) (bufLen : Nat)
        (s : SnappyReader) (e : Error) (s₁ : SnappyReader),
      SnappyReader.read decomp bufLen s = .err e s₁ →
      s₁.compressed_data.IsSuffix s.compressed_data) ∧
    (∀ (decomp : List Nat → Except (List Nat) (List Nat)) (acc : List Nat)
        (s : SnappyReader) (e : Error) (s₁ : SnappyReader) (a₁ : List Nat),
      SnappyReader.read_to_end decomp acc s = .err e (s₁, a₁) →
      s₁.compressed_data.IsSuffix s.compressed_data) := by
  constructor
  · intro decomp bufLen s e s₁ h
    unfold SnappyReader.read at h
    split at h
    · simp [read_uncompressed] at h
    · split at h
      · simp [read_uncompressed] at h
      · simp at h
      · rename_i heq
        cases h
        exact next_chunk_err_suffix decomp s _ _ heq
      · simp at h
  · intro decomp acc s e s₁ a₁ h
    unfold SnappyReader.read_to_end at h
    by_cases hlt : s.uncompressed_pos < s.uncompressed_chunk.length
    · simp only [hlt, if_true] at h
      split at h
      · simp at h
      · rename_i heq
        have hsfx := rteLoop_suffix decomp _ _ _ (le_refl _) _ _ _ heq
        simp only [Outcome.err.injEq, Prod.mk.injEq] at h
        obtain ⟨-, hs₁, -⟩ := h
        rw [← hs₁]
        simpa using hsfx
      · simp at h
    · simp only [hlt, if_false] at h
      split at h
      · simp at h
      · rename_i heq
        have hsfx := rteLoop_suffix decomp _ _ _ (le_refl _) _ _ _ heq
        simp only [Outcome.err.injEq, Prod.mk.injEq] at h
        obtain ⟨-, hs₁, -⟩ := h
        rw [← hs₁]
        simpa using hsfx
      · simp at h

theorem C3_error_not_atomic_witness :
    List.IsSuffix ([0, 0, 0] : List Nat) [0, 0, 0] ∧
    List.IsSuffix ([0, 0, 0] : List Nat) [0, 0, 0] :=
  ⟨C3_error_not_atomic.1 okDecomp 1 ⟨[0, 0, 0], 1, [7]⟩ .UnexpectedEOF
      ⟨[0, 0, 0], 0, [7]⟩ (by decide),
   C3_error_not_atomic.2 okDecomp [] ⟨[0, 0, 0], 0, []⟩ .UnexpectedEOF
      ⟨[0, 0, 0], 0, []⟩ []
      (by simp [SnappyReader.read_to_end, rteLoop])⟩

end KafkaRust
